import Mathlib

/-!
Verification development for the go-paperless-uploader repository.

The Go source is embedded shallowly: pure path manipulation becomes Lean
functions on strings, the filesystem becomes an explicit state record,
channel traffic becomes an explicit trace of items, and the network
outcome of an upload becomes a boolean oracle on paths.
-/

set_option maxHeartbeats 1000000

namespace GoPaperlessUploader

/-- Go path/filepath Base, for slash-separated paths: the last element of
the path after trailing separators are removed; "." for the empty path;
"/" when the path is all separators. Used by UploadDocument
(pkg/paperless/client.go) and handlePostUpload (main.go). -/
def filepathBase (p : String) : String :=
  if p = "" then "."
  else if p.toList.reverse.dropWhile (fun c => c == '/') = [] then "/"
  else String.mk ((p.toList.reverse.dropWhile (fun c => c == '/')).takeWhile
    (fun c => c != '/')).reverse

/-- Go path/filepath Dir, for slash-separated paths without redundant
inner separators: everything up to the final separator, with trailing
separators then removed; "." when there is no separator; "/" when only
separators remain. (Clean's normalisation of inner separator runs is not
reproduced; the development applies Dir to clean paths only.) -/
def filepathDir (p : String) : String :=
  if (p.toList.reverse.dropWhile (fun c => c != '/')).dropWhile (fun c => c == '/') = []
  then (if p.toList.reverse.dropWhile (fun c => c != '/') = [] then "." else "/")
  else String.mk ((p.toList.reverse.dropWhile (fun c => c != '/')).dropWhile
    (fun c => c == '/')).reverse

/-- Go path/filepath Join for two already-clean elements: joined with a
separator; an empty first element yields the second unchanged. -/
def filepathJoin (dir name : String) : String :=
  if dir = "" then name else dir ++ "/" ++ name

/-- One part of the multipart request body built by UploadDocument:
either the form file created by CreateFormFile (field name, file name,
streamed content) or a plain form field. -/
inductive FormPart where
  | filePart (fieldName fileName content : String)
  | formField (name value : String)
  deriving DecidableEq

/-- From pkg/paperless/client.go UploadDocument: the multipart writer
creates a form file under the fixed field name "document", named with
the file's base name, and the file's contents are copied into it. -/
def uploadFilePart (filePath contents : String) : FormPart :=
  FormPart.filePart "document" (filepathBase filePath) contents

/-- Modelled from the spec: the tag-accepting variant of UploadDocument is
not present under src (only its caller in main.go and its tests are); the
spec says it "attaches each tag id as a repeated form field", one field
per id, under the name "tags" as fixed by the repository's client tests. -/
def uploadTagFields (tagIDs : List Int) : List FormPart :=
  tagIDs.map (fun id => FormPart.formField "tags" (toString id))

/-- The full multipart form assembled by UploadDocument for one upload:
the document file part plus the repeated tag fields. -/
def buildUploadForm (filePath contents : String) (tagIDs : List Int) : List FormPart :=
  uploadFilePart filePath contents :: uploadTagFields tagIDs

/-- From pkg/paperless/client.go UploadDocument: response handling. Any
status other than http.StatusOK (200) produces an error whose message
carries the numeric status code and the response body text. -/
def uploadResponse (status : Nat) (body : String) : Except String Unit :=
  if status != 200 then
    Except.error ("failed to upload document: received status code " ++
      toString status ++ ", body: " ++ body)
  else Except.ok ()

/-- Follows the spec's words, for refinement comparison only: an HTTP
response status is a success when it lies in the 2xx range. -/
def specSuccessStatus (status : Nat) : Bool :=
  decide (200 ≤ status) && decide (status < 300)

/-- pat is an initial segment of l. -/
def segAtFront (pat l : List Char) : Bool :=
  match pat, l with
  | [], _ => true
  | _ :: _, [] => false
  | p :: ps, c :: cs => (p == c) && segAtFront ps cs

/-- pat occurs as a contiguous segment of l. -/
def containsSeg (pat : List Char) : List Char → Bool
  | [] => segAtFront pat []
  | c :: cs => segAtFront pat (c :: cs) || containsSeg pat cs

/-- The string s contains pat as a substring. -/
def strContains (s pat : String) : Bool :=
  containsSeg pat.toList s.toList

/-- From pkg/paperless (GetTags): one record of the fetched tag catalog. -/
structure Tag where
  id : Int
  name : String
  deriving DecidableEq

/-- Go map assignment m[k] = v: any previous binding of k is replaced. -/
def mapSet (m : List (String × Int)) (k : String) (v : Int) : List (String × Int) :=
  m.filter (fun kv => kv.1 != k) ++ [(k, v)]

/-- Go map read with ok-flag: the binding of k in m, if any. -/
def mapLookup (m : List (String × Int)) (k : String) : Option Int :=
  (m.find? (fun kv => kv.1 == k)).map (fun kv => kv.2)

/-- From cmd/paperless-uploader/main.go runApp: tagMap is built by
iterating the fetched catalog and assigning tagMap[tag.Name] = tag.ID. -/
def buildTagMap (catalog : List Tag) : List (String × Int) :=
  catalog.foldl (fun m t => mapSet m t.name t.id) []

/-- From cmd/paperless-uploader/main.go runApp: each configured tag name
is looked up in tagMap; a hit appends the id to tagIDs, a miss logs a
warning that the tag will be ignored. Returns the resolved ids and the
warned-about names, both in iteration order. -/
def resolveTagIDs (tagMap : List (String × Int)) : List String → List Int × List String
  | [] => ([], [])
  | n :: rest =>
    let r := resolveTagIDs tagMap rest
    match mapLookup tagMap n with
    | some id => (id :: r.1, r.2)
    | none => (r.1, n :: r.2)

/-- From internal/config/config.go: the configuration fields used by the
pipeline. -/
structure Config where
  paperlessURL : String
  apiKey : String
  watchFolder : String
  postUploadAction : String
  processedFolder : String
  tags : List String
  deriving DecidableEq

/-- The filesystem state visible to the program: the regular-file paths
that exist and the directory paths that exist. -/
structure FS where
  files : List String
  dirs : List String
  deriving DecidableEq

/-- Observable steps of the pipeline: the watch subscription being
established, an upload attempt (with the tag ids passed and its outcome),
an invocation of the disposer for a path, a log line, and a send on the
done channel (which nothing in the source ever performs). -/
inductive Action where
  | subscribe
  | uploadAttempt (path : String) (tagIDs : List Int) (ok : Bool)
  | dispose (path : String)
  | logMsg (msg : String)
  | signalDone
  deriving DecidableEq

/-- From cmd/paperless-uploader/main.go handlePostUpload, "move" arm after
the folder check: newPath joins the processed folder with the file's base
name; os.Rename fails when the source path does not exist (logged), and
otherwise moves the file, replacing any file already at the destination. -/
def renameInto (cfg : Config) (filePath : String) (fs : FS) : FS × List Action :=
  if filePath ∈ fs.files then
    ({ fs with files := filepathJoin cfg.processedFolder (filepathBase filePath) ::
        ((fs.files.erase filePath).erase
          (filepathJoin cfg.processedFolder (filepathBase filePath))) },
     [Action.logMsg ("Moved file " ++ filePath ++ " to "
        ++ filepathJoin cfg.processedFolder (filepathBase filePath))])
  else (fs, [Action.logMsg ("Failed to move file " ++ filePath ++ " to "
    ++ filepathJoin cfg.processedFolder (filepathBase filePath))])

/-- From cmd/paperless-uploader/main.go handlePostUpload: a switch on the
configured action. "delete" removes the file (os.Remove fails when the
path does not exist, which is only logged); "move" stats the processed
folder and, when it is missing, creates it recursively with os.MkdirAll —
whose possible failure is modelled by the mkdirOK parameter — aborting
with a log line when creation fails, and otherwise renames the file into
it; any other action value falls through the switch and does nothing. The
source function has no return value: failures are logged, never
propagated. -/
def handlePostUpload (mkdirOK : Bool) (cfg : Config) (filePath : String) (fs : FS) :
    FS × List Action :=
  if cfg.postUploadAction = "delete" then
    if filePath ∈ fs.files then
      ({ fs with files := fs.files.erase filePath },
       [Action.logMsg ("Deleted file " ++ filePath)])
    else (fs, [Action.logMsg ("Failed to delete file " ++ filePath)])
  else if cfg.postUploadAction = "move" then
    if cfg.processedFolder ∈ fs.dirs then renameInto cfg filePath fs
    else if mkdirOK then
      renameInto cfg filePath { fs with dirs := cfg.processedFolder :: fs.dirs }
    else (fs, [Action.logMsg ("Failed to create processed folder " ++ cfg.processedFolder)])
  else (fs, [])

/-- From cmd/paperless-uploader/main.go watchDirectory, Create-event arm:
after the one-second settle delay (time is not modelled), the path is
uploaded with the pre-resolved tag ids; the network outcome is the oracle
up. A failure is logged and nothing else happens for this file; a success
is logged and handlePostUpload runs once. -/
def handleCreateEvent (mkdirOK : Bool) (cfg : Config) (up : String → Bool)
    (tagIDs : List Int) (name : String) (fs : FS) : FS × List Action :=
  if up name then
    let r := handlePostUpload mkdirOK cfg name fs
    (r.1, Action.uploadAttempt name tagIDs true ::
          Action.logMsg ("Successfully uploaded " ++ name) ::
          Action.dispose name :: r.2)
  else
    (fs, [Action.uploadAttempt name tagIDs false,
          Action.logMsg ("Failed to upload document " ++ name)])

/-- One item received by the event-loop goroutine: the two fsnotify
channels are modelled as a single interleaved trace, a closed channel
being an explicit trace item on which the receive yields ok = false. -/
inductive ChanItem where
  | createEvent (name : String)
  | otherEvent (name : String)
  | errMsg (msg : String)
  | eventsClosed
  | errorsClosed
  deriving DecidableEq

/-- Result of running the event-loop goroutine on a finite trace: the
filesystem afterwards, the actions performed, and whether the goroutine
returned (a trace exhausted without a channel close leaves it waiting). -/
structure LoopResult where
  fs : FS
  actions : List Action
  exited : Bool
  deriving DecidableEq

/-- From cmd/paperless-uploader/main.go watchDirectory: the event-loop
goroutine. A Create event is handled by handleCreateEvent; an event whose
Op mask lacks Create is ignored; a watcher error is logged and the loop
continues; a receive with ok = false on either channel makes the
goroutine return. -/
def eventLoop (mkdirOK : Bool) (cfg : Config) (up : String → Bool)
    (tagIDs : List Int) : List ChanItem → FS → LoopResult
  | [], fs => ⟨fs, [], false⟩
  | ChanItem.createEvent n :: rest, fs =>
    let h := handleCreateEvent mkdirOK cfg up tagIDs n fs
    let r := eventLoop mkdirOK cfg up tagIDs rest h.1
    ⟨r.fs, Action.logMsg ("New file detected: " ++ n) :: (h.2 ++ r.actions), r.exited⟩
  | ChanItem.otherEvent _ :: rest, fs => eventLoop mkdirOK cfg up tagIDs rest fs
  | ChanItem.errMsg m :: rest, fs =>
    let r := eventLoop mkdirOK cfg up tagIDs rest fs
    ⟨r.fs, Action.logMsg ("error: " ++ m) :: r.actions, r.exited⟩
  | ChanItem.eventsClosed :: _, fs => ⟨fs, [], true⟩
  | ChanItem.errorsClosed :: _, fs => ⟨fs, [], true⟩

/-- From cmd/paperless-uploader/main.go watchDirectory: after starting
the goroutine and adding the watch, the function blocks on a receive from
the done channel. No send or close on that channel exists anywhere in the
source, so watchDirectory returns control to its caller only if the run
emits a done signal. -/
def watchDirectoryReturns (mkdirOK : Bool) (cfg : Config) (up : String → Bool)
    (tagIDs : List Int) (trace : List ChanItem) (fs : FS) : Prop :=
  Action.signalDone ∈ (eventLoop mkdirOK cfg up tagIDs trace fs).actions

/-- One entry presented by filepath.Walk during the reconciliation sweep:
a regular file, a directory, or a path whose lstat failed (Walk then calls
the callback with a non-nil err). -/
inductive WalkEntry where
  | fileEntry (path : String)
  | dirEntry (path : String)
  | statErrEntry (path : String)
  deriving DecidableEq

/-- Result of the reconciliation sweep: the filesystem afterwards, the
actions performed, and whether the walk was aborted by an error returned
from the callback. -/
structure SweepResult where
  fs : FS
  actions : List Action
  aborted : Bool
  deriving DecidableEq

/-- From cmd/paperless-uploader/main.go watchDirectory, the walk callback
body for a non-directory entry: upload the path with the pre-resolved tag
ids; a failure is logged (and the callback returns nil, continuing the
walk); a success is logged and handlePostUpload runs once. -/
def handleSweepFile (mkdirOK : Bool) (cfg : Config) (up : String → Bool)
    (tagIDs : List Int) (path : String) (fs : FS) : FS × List Action :=
  if up path then
    let r := handlePostUpload mkdirOK cfg path fs
    (r.1, Action.uploadAttempt path tagIDs true ::
          Action.logMsg ("Successfully uploaded existing file " ++ path) ::
          Action.dispose path :: r.2)
  else
    (fs, [Action.uploadAttempt path tagIDs false,
          Action.logMsg ("Failed to upload existing document " ++ path)])

/-- From cmd/paperless-uploader/main.go watchDirectory: the filepath.Walk
reconciliation sweep. The callback returns err unchanged when Walk hands
it a non-nil err for an entry, which stops the whole walk — every
remaining entry is skipped and the caller logs the error once. Directory
entries are skipped; file entries run handleSweepFile and the walk
continues regardless of the upload outcome. -/
def sweep (mkdirOK : Bool) (cfg : Config) (up : String → Bool)
    (tagIDs : List Int) : List WalkEntry → FS → SweepResult
  | [], fs => ⟨fs, [], false⟩
  | WalkEntry.statErrEntry p :: _, fs =>
    ⟨fs, [Action.logMsg ("Error processing existing files: " ++ p)], true⟩
  | WalkEntry.dirEntry _ :: rest, fs => sweep mkdirOK cfg up tagIDs rest fs
  | WalkEntry.fileEntry p :: rest, fs =>
    let h := handleSweepFile mkdirOK cfg up tagIDs p fs
    let r := sweep mkdirOK cfg up tagIDs rest h.1
    ⟨r.fs, h.2 ++ r.actions, r.aborted⟩

/-- From cmd/paperless-uploader/main.go watchDirectory: in program order
the main flow establishes the watch subscription (watcher.Add on the
watch folder) and only then starts the filepath.Walk sweep over the
pre-existing tree. -/
def startupTrace (mkdirOK : Bool) (cfg : Config) (up : String → Bool)
    (tagIDs : List Int) (entries : List WalkEntry) (fs : FS) : List Action :=
  Action.subscribe :: (sweep mkdirOK cfg up tagIDs entries fs).actions

/-- From cmd/paperless-uploader/main.go runApp + watchDirectory: a watch
run resolves the configured tag names against the fetched catalog once,
then drives both the sweep and the event loop with that single id list. -/
def runWatchTrace (mkdirOK : Bool) (cfg : Config) (up : String → Bool)
    (catalog : List Tag) (entries : List WalkEntry) (trace : List ChanItem)
    (fs : FS) : List Action :=
  let ids := (resolveTagIDs (buildTagMap catalog) cfg.tags).1
  let s := sweep mkdirOK cfg up ids entries fs
  Action.subscribe :: (s.actions ++ (eventLoop mkdirOK cfg up ids trace s.fs).actions)

/-- Recognizer for upload-attempt actions. -/
def isUploadAction : Action → Bool
  | Action.uploadAttempt _ _ _ => true
  | _ => false

/-- Recognizer for the form-file part of a multipart body. -/
def isFileFormPart : FormPart → Bool
  | FormPart.filePart _ _ _ => true
  | _ => false

/-- Recognizer for plain form fields of a multipart body. -/
def isPlainFormPart : FormPart → Bool
  | FormPart.formField _ _ => true
  | _ => false

theorem handlePostUpload_actions_logOnly (mkdirOK : Bool) (cfg : Config) (p : String)
    (fs : FS) : ∀ a ∈ (handlePostUpload mkdirOK cfg p fs).2, ∃ m, a = Action.logMsg m := by
  intro a ha
  unfold handlePostUpload renameInto at ha
  split_ifs at ha <;> simp_all

/-- C1: every document upload with a file path and tag ids builds a
multipart body whose single file part carries the file's contents under
the fixed field name "document" alongside the file's base name, and whose
plain form fields are exactly one repeated "tags" field per tag id. -/
theorem upload_form_document_and_repeated_tags
    (filePath contents : String) (tagIDs : List Int) :
    (buildUploadForm filePath contents tagIDs).filter isFileFormPart
        = [FormPart.filePart "document" (filepathBase filePath) contents]
    ∧ (buildUploadForm filePath contents tagIDs).filter isPlainFormPart
        = tagIDs.map (fun id => FormPart.formField "tags" (toString id)) := by
  constructor <;>
    induction tagIDs with
    | nil => simp [buildUploadForm, uploadFilePart, uploadTagFields, isFileFormPart,
        isPlainFormPart]
    | cons hd tl ih =>
      simp only [buildUploadForm, uploadFilePart, uploadTagFields, List.map_cons,
        List.filter_cons, isFileFormPart, isPlainFormPart] at ih ⊢
      simpa using ih

/-- C7 counterexample: 201 Created is a success status by the spec's
wording, yet UploadDocument's response handling returns an error for it —
the code accepts exactly status 200. -/
theorem success_status_201_still_error :
    specSuccessStatus 201 = true ∧ uploadResponse 201 "created" ≠ Except.ok () := by
  constructor
  · rfl
  · simp [uploadResponse]

theorem segAtFront_self_append (pat rest : List Char) :
    segAtFront pat (pat ++ rest) = true := by
  induction pat with
  | nil => rfl
  | cons c cs ih => simp [segAtFront, ih]

theorem containsSeg_of_front (pat l : List Char) (h : segAtFront pat l = true) :
    containsSeg pat l = true := by
  cases l with
  | nil => simpa [containsSeg] using h
  | cons c cs => simp [containsSeg, h]

theorem containsSeg_append_of (pat pre l : List Char)
    (h : containsSeg pat l = true) : containsSeg pat (pre ++ l) = true := by
  induction pre with
  | nil => simpa using h
  | cons c cs ih => simp [containsSeg, ih]

theorem strContains_middle (a b c : String) : strContains (a ++ b ++ c) b = true := by
  unfold strContains
  have htl : (a ++ b ++ c).toList = a.toList ++ (b.toList ++ c.toList) := by
    show (a ++ b ++ c).data = a.data ++ (b.data ++ c.data)
    rw [String.data_append, String.data_append, List.append_assoc]
  rw [htl]
  exact containsSeg_append_of _ _ _
    (containsSeg_of_front _ _ (segAtFront_self_append _ _))

theorem strContains_right (a b : String) : strContains (a ++ b) b = true := by
  unfold strContains
  have htl : (a ++ b).toList = a.toList ++ b.toList := by
    show (a ++ b).data = a.data ++ b.data
    rw [String.data_append]
  rw [htl]
  exact containsSeg_append_of _ _ _
    (containsSeg_of_front _ _ (by simpa using segAtFront_self_append b.toList []))

/-- C7 amended: a document upload succeeds exactly when the response
status is exactly 200 (other success statuses are treated as failures);
every non-200 response yields an error whose message contains both the
numeric status code and the response body text; in particular a 500
response with body "server error" yields an error message that contains
both "500" and "server error". -/
theorem upload_ok_iff_status_200 (status : Nat) (body : String) :
    (uploadResponse status body = Except.ok () ↔ status = 200)
    ∧ (status ≠ 200 →
        uploadResponse status body = Except.error
          ("failed to upload document: received status code "
            ++ toString status ++ ", body: " ++ body)
        ∧ strContains ("failed to upload document: received status code "
            ++ toString status ++ ", body: " ++ body) (toString status) = true
        ∧ strContains ("failed to upload document: received status code "
            ++ toString status ++ ", body: " ++ body) body = true)
    ∧ ∃ msg, uploadResponse 500 "server error" = Except.error msg
        ∧ strContains msg "500" = true ∧ strContains msg "server error" = true := by
  refine ⟨?_, ?_, ?_⟩
  · by_cases h : status = 200 <;> simp [uploadResponse, h]
  · intro h
    refine ⟨by simp [uploadResponse, h], ?_, strContains_right _ _⟩
    have hshape : "failed to upload document: received status code "
        ++ toString status ++ ", body: " ++ body
        = "failed to upload document: received status code "
          ++ toString status ++ (", body: " ++ body) := by
      rw [String.append_assoc]
    rw [hshape]
    exact strContains_middle _ _ _
  · exact ⟨"failed to upload document: received status code 500, body: server error",
      rfl, by decide, by decide⟩

/-- C10: any post-upload action other than "delete" and "move" (the empty
string, "none", "archive", ...) falls through handlePostUpload's switch:
no filesystem change, no log, normal return. -/
theorem unrecognized_action_is_noop (mkdirOK : Bool) (cfg : Config) (filePath : String)
    (fs : FS) (h1 : cfg.postUploadAction ≠ "delete") (h2 : cfg.postUploadAction ≠ "move") :
    handlePostUpload mkdirOK cfg filePath fs = (fs, []) := by
  unfold handlePostUpload
  rw [if_neg h1, if_neg h2]

theorem unrecognized_action_is_noop_witness :
    (("archive" : String) ≠ "delete" ∧ ("archive" : String) ≠ "move")
    ∧ handlePostUpload true ⟨"u", "k", "watch", "archive", "processed", []⟩ "watch/a.pdf"
        ⟨["watch/a.pdf"], []⟩ = (⟨["watch/a.pdf"], []⟩, []) :=
  ⟨⟨by decide, by decide⟩,
    unrecognized_action_is_noop true ⟨"u", "k", "watch", "archive", "processed", []⟩
      "watch/a.pdf" ⟨["watch/a.pdf"], []⟩ (by decide) (by decide)⟩

theorem handleCreateEvent_no_signalDone (mkdirOK : Bool) (cfg : Config) (up : String → Bool)
    (tagIDs : List Int) (n : String) (fs : FS) :
    Action.signalDone ∉ (handleCreateEvent mkdirOK cfg up tagIDs n fs).2 := by
  intro h
  unfold handleCreateEvent at h
  split at h
  · simp only [List.mem_cons] at h
    rcases h with h | h | h | h
    · exact Action.noConfusion h
    · exact Action.noConfusion h
    · exact Action.noConfusion h
    · obtain ⟨m, hm⟩ := handlePostUpload_actions_logOnly mkdirOK cfg n fs _ h
      exact Action.noConfusion hm
  · simp at h

/-- C2 counterexample: the watch subsystem closing the event channel makes
the event-loop goroutine return, but watchDirectory does not return
control to its caller — it stays blocked receiving from the done channel,
which nothing ever signals. -/
theorem event_channel_close_not_propagated :
    (eventLoop true ⟨"u", "k", "watch", "", "processed", []⟩ (fun _ => true) []
        [ChanItem.eventsClosed] ⟨[], []⟩).exited = true
    ∧ ¬ watchDirectoryReturns true ⟨"u", "k", "watch", "", "processed", []⟩ (fun _ => true) []
        [ChanItem.eventsClosed] ⟨[], []⟩ := by
  constructor
  · rfl
  · intro h
    simp [watchDirectoryReturns, eventLoop] at h

/-- C2 amended: the event-loop goroutine returns exactly when the watch
subsystem closes one of its channels (otherwise it keeps waiting), and in
that case the condition is not propagated: the loop never signals the
done channel, so watchDirectory keeps blocking instead of returning to
its caller. -/
theorem event_loop_exit_iff_channel_close_and_blocks
    (mkdirOK : Bool) (cfg : Config) (up : String → Bool) (tagIDs : List Int)
    (trace : List ChanItem) (fs : FS) :
    ((eventLoop mkdirOK cfg up tagIDs trace fs).exited = true ↔
        ChanItem.eventsClosed ∈ trace ∨ ChanItem.errorsClosed ∈ trace)
    ∧ ¬ watchDirectoryReturns mkdirOK cfg up tagIDs trace fs := by
  induction trace generalizing fs with
  | nil => simp [eventLoop, watchDirectoryReturns]
  | cons hd tl ih =>
    cases hd with
    | createEvent n =>
      have h1 := ih ((handleCreateEvent mkdirOK cfg up tagIDs n fs).1)
      refine ⟨?_, ?_⟩
      · simpa [eventLoop] using h1.1
      · intro h
        simp only [watchDirectoryReturns, eventLoop, List.mem_cons, List.mem_append] at h
        rcases h with h | h | h
        · exact Action.noConfusion h
        · exact handleCreateEvent_no_signalDone mkdirOK cfg up tagIDs n fs h
        · exact h1.2 h
    | otherEvent n =>
      have h1 := ih fs
      refine ⟨?_, ?_⟩
      · simpa [eventLoop] using h1.1
      · intro h
        exact h1.2 h
    | errMsg m =>
      have h1 := ih fs
      refine ⟨?_, ?_⟩
      · simpa [eventLoop] using h1.1
      · intro h
        simp only [watchDirectoryReturns, eventLoop, List.mem_cons] at h
        rcases h with h | h
        · exact Action.noConfusion h
        · exact h1.2 h
    | eventsClosed => simp [eventLoop, watchDirectoryReturns]
    | errorsClosed => simp [eventLoop, watchDirectoryReturns]

/-- Recognizer for an upload attempt of one given path. -/
def isUploadOf (name : String) : Action → Bool
  | Action.uploadAttempt p _ _ => p == name
  | _ => false

/-- Recognizer for a creation event for one given path. -/
def isCreateOf (name : String) : ChanItem → Bool
  | ChanItem.createEvent p => p == name
  | _ => false

/-- Recognizer for a channel-close trace item. -/
def isCloseItem : ChanItem → Bool
  | ChanItem.eventsClosed => true
  | ChanItem.errorsClosed => true
  | _ => false

/-- The trace items the goroutine actually consumes: everything up to the
first channel close. -/
def openPre (trace : List ChanItem) : List ChanItem :=
  trace.takeWhile (fun c => !isCloseItem c)

theorem handlePostUpload_upload_count (mkdirOK : Bool) (cfg : Config) (p : String)
    (fs : FS) (name : String) :
    (handlePostUpload mkdirOK cfg p fs).2.countP (isUploadOf name) = 0 := by
  refine List.countP_eq_zero.mpr (fun a ha => ?_)
  obtain ⟨m, hm⟩ := handlePostUpload_actions_logOnly mkdirOK cfg p fs a ha
  simp [hm, isUploadOf]

theorem handleCreateEvent_upload_count (mkdirOK : Bool) (cfg : Config) (up : String → Bool)
    (tagIDs : List Int) (n : String) (fs : FS) (name : String) :
    (handleCreateEvent mkdirOK cfg up tagIDs n fs).2.countP (isUploadOf name)
      = if n = name then 1 else 0 := by
  unfold handleCreateEvent
  split
  · simp [List.countP_cons, isUploadOf, handlePostUpload_upload_count]
  · simp [List.countP_cons, isUploadOf]

theorem eventLoop_upload_count (mkdirOK : Bool) (cfg : Config) (up : String → Bool)
    (tagIDs : List Int) (name : String) (trace : List ChanItem) (fs : FS) :
    (eventLoop mkdirOK cfg up tagIDs trace fs).actions.countP (isUploadOf name)
      = (openPre trace).countP (isCreateOf name) := by
  induction trace generalizing fs with
  | nil => simp [eventLoop, openPre]
  | cons hd tl ih =>
    cases hd with
    | createEvent n =>
      have hc := handleCreateEvent_upload_count mkdirOK cfg up tagIDs n fs name
      have hr := ih ((handleCreateEvent mkdirOK cfg up tagIDs n fs).1)
      simp only [openPre] at hr
      simp only [eventLoop, openPre, List.countP_cons, List.countP_append]
      rw [hc, hr]
      by_cases hnn : n = name <;>
        simp [hnn, isCreateOf, isUploadOf, isCloseItem, List.takeWhile_cons,
          List.countP_cons] <;> omega
    | otherEvent n =>
      simpa [eventLoop, openPre, isCloseItem, isCreateOf] using ih fs
    | errMsg m =>
      simpa [eventLoop, openPre, isCloseItem, isCreateOf, isUploadOf, List.countP_cons]
        using ih fs
    | eventsClosed => simp [eventLoop, openPre, isCloseItem]
    | errorsClosed => simp [eventLoop, openPre, isCloseItem]

/-- C5: when the upload of a file fails, the filesystem is untouched, the
disposer never runs for it, the failure is logged; and the loop never
schedules a retry — across any trace the number of upload attempts for a
path equals the number of creation events consumed for that path. -/
theorem failed_upload_isolated_no_retry
    (mkdirOK : Bool) (cfg : Config) (up : String → Bool) (tagIDs : List Int)
    (name : String) (fs : FS) (trace : List ChanItem) (hfail : up name = false) :
    (handleCreateEvent mkdirOK cfg up tagIDs name fs).1 = fs
    ∧ Action.dispose name ∉ (handleCreateEvent mkdirOK cfg up tagIDs name fs).2
    ∧ Action.logMsg ("Failed to upload document " ++ name)
        ∈ (handleCreateEvent mkdirOK cfg up tagIDs name fs).2
    ∧ (eventLoop mkdirOK cfg up tagIDs trace fs).actions.countP (isUploadOf name)
        = (openPre trace).countP (isCreateOf name) := by
  refine ⟨?_, ?_, ?_, eventLoop_upload_count mkdirOK cfg up tagIDs name trace fs⟩
  · simp [handleCreateEvent, hfail]
  · simp [handleCreateEvent, hfail]
  · simp [handleCreateEvent, hfail]

theorem failed_upload_isolated_no_retry_witness :
    ((fun _ : String => false) "watch/b.pdf" = false)
    ∧ (handleCreateEvent true ⟨"u", "k", "watch", "", "processed", []⟩ (fun _ => false) []
        "watch/b.pdf" ⟨["watch/b.pdf"], []⟩).1 = ⟨["watch/b.pdf"], []⟩
    ∧ Action.dispose "watch/b.pdf" ∉ (handleCreateEvent true
        ⟨"u", "k", "watch", "", "processed", []⟩ (fun _ => false) []
        "watch/b.pdf" ⟨["watch/b.pdf"], []⟩).2
    ∧ Action.logMsg ("Failed to upload document " ++ "watch/b.pdf")
        ∈ (handleCreateEvent true ⟨"u", "k", "watch", "", "processed", []⟩ (fun _ => false) []
        "watch/b.pdf" ⟨["watch/b.pdf"], []⟩).2
    ∧ (eventLoop true ⟨"u", "k", "watch", "", "processed", []⟩ (fun _ => false) []
          [ChanItem.createEvent "watch/b.pdf"] ⟨["watch/b.pdf"], []⟩).actions.countP
          (isUploadOf "watch/b.pdf")
        = (openPre [ChanItem.createEvent "watch/b.pdf"]).countP (isCreateOf "watch/b.pdf") :=
  ⟨rfl, failed_upload_isolated_no_retry true ⟨"u", "k", "watch", "", "processed", []⟩
    (fun _ => false) [] "watch/b.pdf" ⟨["watch/b.pdf"], []⟩
    [ChanItem.createEvent "watch/b.pdf"] rfl⟩

theorem handlePostUpload_upload_filter (mkdirOK : Bool) (cfg : Config) (p : String)
    (fs : FS) : (handlePostUpload mkdirOK cfg p fs).2.filter isUploadAction = [] := by
  refine List.filter_eq_nil_iff.mpr (fun a ha => ?_)
  obtain ⟨m, hm⟩ := handlePostUpload_actions_logOnly mkdirOK cfg p fs a ha
  simp [hm, isUploadAction]

theorem handleCreateEvent_upload_filter (mkdirOK : Bool) (cfg : Config) (up : String → Bool)
    (tagIDs : List Int) (n : String) (fs : FS) :
    (handleCreateEvent mkdirOK cfg up tagIDs n fs).2.filter isUploadAction
      = [Action.uploadAttempt n tagIDs (up n)] := by
  cases hu : up n <;>
    simp [handleCreateEvent, hu, isUploadAction, handlePostUpload_upload_filter,
      List.filter_cons]

theorem eventLoop_mkdir_independent (cfg : Config) (up : String → Bool) (tagIDs : List Int)
    (trace : List ChanItem) (mk1 mk2 : Bool) (fs1 fs2 : FS) :
    (eventLoop mk1 cfg up tagIDs trace fs1).actions.filter isUploadAction
      = (eventLoop mk2 cfg up tagIDs trace fs2).actions.filter isUploadAction
    ∧ (eventLoop mk1 cfg up tagIDs trace fs1).exited
      = (eventLoop mk2 cfg up tagIDs trace fs2).exited := by
  induction trace generalizing fs1 fs2 with
  | nil => simp [eventLoop]
  | cons hd tl ih =>
    cases hd with
    | createEvent n =>
      have h1 := ih ((handleCreateEvent mk1 cfg up tagIDs n fs1).1)
        ((handleCreateEvent mk2 cfg up tagIDs n fs2).1)
      refine ⟨?_, by simpa [eventLoop] using h1.2⟩
      simp only [eventLoop, List.filter_cons, List.filter_append]
      rw [handleCreateEvent_upload_filter, handleCreateEvent_upload_filter, h1.1]
    | otherEvent n => simpa [eventLoop] using ih fs1 fs2
    | errMsg m =>
      have h1 := ih fs1 fs2
      refine ⟨?_, by simpa [eventLoop] using h1.2⟩
      simp only [eventLoop, List.filter_cons]
      simp [isUploadAction, h1.1]
    | eventsClosed => simp [eventLoop]
    | errorsClosed => simp [eventLoop]

/-- C6: under the "move" action the processed folder is created
recursively on first use when missing (and left alone when present); if
it cannot be created the move is aborted with a log line and the
filesystem — the source file included — is untouched; when creation
succeeds the file lands in the folder under its base name; and a
disposition failure is never propagated: the loop's upload behaviour and
exit are identical whatever the disposer's filesystem luck. -/
theorem move_disposition_creation_and_no_propagation
    (mkdirOK : Bool) (cfg : Config) (up : String → Bool) (tagIDs : List Int)
    (p : String) (fs : FS) (hmv : cfg.postUploadAction = "move") :
    (cfg.processedFolder ∉ fs.dirs → mkdirOK = false →
        handlePostUpload mkdirOK cfg p fs
          = (fs, [Action.logMsg ("Failed to create processed folder " ++ cfg.processedFolder)]))
    ∧ (cfg.processedFolder ∉ fs.dirs → mkdirOK = true → p ∈ fs.files →
        cfg.processedFolder ∈ (handlePostUpload mkdirOK cfg p fs).1.dirs
        ∧ filepathJoin cfg.processedFolder (filepathBase p)
            ∈ (handlePostUpload mkdirOK cfg p fs).1.files)
    ∧ (cfg.processedFolder ∈ fs.dirs → (handlePostUpload mkdirOK cfg p fs).1.dirs = fs.dirs)
    ∧ (∀ mk1 mk2 : Bool, ∀ trace : List ChanItem,
        (eventLoop mk1 cfg up tagIDs trace fs).actions.filter isUploadAction
          = (eventLoop mk2 cfg up tagIDs trace fs).actions.filter isUploadAction
        ∧ (eventLoop mk1 cfg up tagIDs trace fs).exited
          = (eventLoop mk2 cfg up tagIDs trace fs).exited) := by
  refine ⟨?_, ?_, ?_, fun mk1 mk2 trace =>
    eventLoop_mkdir_independent cfg up tagIDs trace mk1 mk2 fs fs⟩
  · intro hnd hmk
    simp [handlePostUpload, hmv, hnd, hmk]
  · intro hnd hmk hp
    simp [handlePostUpload, hmv, hnd, hmk, renameInto, hp]
  · intro hd
    simp only [handlePostUpload, hmv, hd, renameInto, if_pos, if_true, if_neg]
    split_ifs <;> rfl

theorem move_disposition_creation_and_no_propagation_witness :
    ((⟨"u", "k", "watch", "move", "out", []⟩ : Config).postUploadAction = "move")
    ∧ ("out" ∉ (⟨["watch/a.pdf"], []⟩ : FS).dirs)
    ∧ ("watch/a.pdf" ∈ (⟨["watch/a.pdf"], []⟩ : FS).files)
    ∧ "out" ∈ (handlePostUpload true ⟨"u", "k", "watch", "move", "out", []⟩ "watch/a.pdf"
        ⟨["watch/a.pdf"], []⟩).1.dirs
    ∧ filepathJoin "out" (filepathBase "watch/a.pdf")
        ∈ (handlePostUpload true ⟨"u", "k", "watch", "move", "out", []⟩ "watch/a.pdf"
        ⟨["watch/a.pdf"], []⟩).1.files :=
  ⟨rfl, by decide, by decide,
    (move_disposition_creation_and_no_propagation true
      ⟨"u", "k", "watch", "move", "out", []⟩ (fun _ => true) [] "watch/a.pdf"
      ⟨["watch/a.pdf"], []⟩ rfl).2.1 (by decide) rfl (by decide) |>.1,
    (move_disposition_creation_and_no_propagation true
      ⟨"u", "k", "watch", "move", "out", []⟩ (fun _ => true) [] "watch/a.pdf"
      ⟨["watch/a.pdf"], []⟩ rfl).2.1 (by decide) rfl (by decide) |>.2⟩

theorem sweep_not_aborted (mkdirOK : Bool) (cfg : Config) (up : String → Bool)
    (tagIDs : List Int) (entries : List WalkEntry) (fs : FS)
    (hok : ∀ p, WalkEntry.statErrEntry p ∉ entries) :
    (sweep mkdirOK cfg up tagIDs entries fs).aborted = false := by
  induction entries generalizing fs with
  | nil => rfl
  | cons hd tl ih =>
    have hok' : ∀ p, WalkEntry.statErrEntry p ∉ tl := by
      intro p hp
      exact hok p (List.mem_cons_of_mem hd hp)
    cases hd with
    | fileEntry q => simpa [sweep] using ih _ hok'
    | dirEntry q => simpa [sweep] using ih fs hok'
    | statErrEntry q => exact absurd (List.mem_cons_self _ _) (hok q)

theorem handleSweepFile_mem_upload (mkdirOK : Bool) (cfg : Config) (up : String → Bool)
    (tagIDs : List Int) (p : String) (fs : FS) :
    Action.uploadAttempt p tagIDs (up p) ∈ (handleSweepFile mkdirOK cfg up tagIDs p fs).2 := by
  cases hu : up p <;> simp [handleSweepFile, hu]

theorem sweep_mem_upload (mkdirOK : Bool) (cfg : Config) (up : String → Bool)
    (tagIDs : List Int) (entries : List WalkEntry) (fs : FS)
    (hok : ∀ q, WalkEntry.statErrEntry q ∉ entries) (p : String)
    (hp : WalkEntry.fileEntry p ∈ entries) :
    Action.uploadAttempt p tagIDs (up p) ∈ (sweep mkdirOK cfg up tagIDs entries fs).actions := by
  induction entries generalizing fs with
  | nil => simp at hp
  | cons hd tl ih =>
    have hok' : ∀ q, WalkEntry.statErrEntry q ∉ tl := by
      intro q hq
      exact hok q (List.mem_cons_of_mem hd hq)
    cases hd with
    | fileEntry q =>
      rcases List.mem_cons.mp hp with heq | htl
      · cases heq
        exact List.mem_append_left _ (handleSweepFile_mem_upload mkdirOK cfg up tagIDs p fs)
      · exact List.mem_append_right _ (ih _ hok' htl)
    | dirEntry q =>
      rcases List.mem_cons.mp hp with heq | htl
      · exact WalkEntry.noConfusion heq
      · simpa [sweep] using ih fs hok' htl
    | statErrEntry q => exact absurd (List.mem_cons_self _ _) (hok q)

theorem sweep_mem_dispose (mkdirOK : Bool) (cfg : Config) (up : String → Bool)
    (tagIDs : List Int) (entries : List WalkEntry) (fs : FS)
    (hok : ∀ q, WalkEntry.statErrEntry q ∉ entries) (p : String)
    (hp : WalkEntry.fileEntry p ∈ entries) (hup : up p = true) :
    Action.dispose p ∈ (sweep mkdirOK cfg up tagIDs entries fs).actions := by
  induction entries generalizing fs with
  | nil => simp at hp
  | cons hd tl ih =>
    have hok' : ∀ q, WalkEntry.statErrEntry q ∉ tl := by
      intro q hq
      exact hok q (List.mem_cons_of_mem hd hq)
    cases hd with
    | fileEntry q =>
      rcases List.mem_cons.mp hp with heq | htl
      · cases heq
        exact List.mem_append_left _ (by simp [handleSweepFile, hup])
      · exact List.mem_append_right _ (ih _ hok' htl)
    | dirEntry q =>
      rcases List.mem_cons.mp hp with heq | htl
      · exact WalkEntry.noConfusion heq
      · simpa [sweep] using ih fs hok' htl
    | statErrEntry q => exact absurd (List.mem_cons_self _ _) (hok q)

/-- C8 counterexample: a traversal (stat) error for one entry is not
isolated — the walk callback returns it, filepath.Walk stops, and a
perfectly good file later in the walk is never uploaded by the sweep. -/
theorem sweep_stat_error_aborts_rest :
    (sweep true ⟨"u", "k", "watch", "", "processed", []⟩ (fun _ => true) []
        [WalkEntry.statErrEntry "watch/bad", WalkEntry.fileEntry "watch/a.pdf"]
        ⟨["watch/a.pdf"], []⟩).actions.countP isUploadAction = 0
    ∧ (sweep true ⟨"u", "k", "watch", "", "processed", []⟩ (fun _ => true) []
        [WalkEntry.statErrEntry "watch/bad", WalkEntry.fileEntry "watch/a.pdf"]
        ⟨["watch/a.pdf"], []⟩).aborted = true := by
  constructor
  · rfl
  · rfl

/-- C8 amended: when the walk itself raises no traversal error, the sweep
enumerates every file entry (descending into subdirectories is Walk's
job, directory entries merely pass through), attempts each upload without
needing a filesystem event, runs the disposer after each success, and an
upload failure for one file is isolated — logged, with the sweep
continuing; a traversal (stat) error, however, aborts the remainder of
the sweep with a single logged error. -/
theorem sweep_isolates_upload_failures
    (mkdirOK : Bool) (cfg : Config) (up : String → Bool) (tagIDs : List Int)
    (entries : List WalkEntry) (fs : FS)
    (hok : ∀ q, WalkEntry.statErrEntry q ∉ entries) :
    (sweep mkdirOK cfg up tagIDs entries fs).aborted = false
    ∧ (∀ p, WalkEntry.fileEntry p ∈ entries →
        Action.uploadAttempt p tagIDs (up p) ∈ (sweep mkdirOK cfg up tagIDs entries fs).actions)
    ∧ (∀ p, WalkEntry.fileEntry p ∈ entries → up p = true →
        Action.dispose p ∈ (sweep mkdirOK cfg up tagIDs entries fs).actions)
    ∧ (∀ p rest, sweep mkdirOK cfg up tagIDs (WalkEntry.statErrEntry p :: rest) fs
        = ⟨fs, [Action.logMsg ("Error processing existing files: " ++ p)], true⟩) :=
  ⟨sweep_not_aborted mkdirOK cfg up tagIDs entries fs hok,
   fun p hp => sweep_mem_upload mkdirOK cfg up tagIDs entries fs hok p hp,
   fun p hp hup => sweep_mem_dispose mkdirOK cfg up tagIDs entries fs hok p hp hup,
   fun _ _ => rfl⟩

theorem sweep_isolates_upload_failures_witness :
    (∀ q, WalkEntry.statErrEntry q ∉ [WalkEntry.fileEntry "watch/a.pdf"])
    ∧ Action.uploadAttempt "watch/a.pdf" [] true
        ∈ (sweep true ⟨"u", "k", "watch", "", "processed", []⟩ (fun _ => true) []
            [WalkEntry.fileEntry "watch/a.pdf"] ⟨["watch/a.pdf"], []⟩).actions
    ∧ (sweep true ⟨"u", "k", "watch", "", "processed", []⟩ (fun _ => true) []
        [WalkEntry.fileEntry "watch/a.pdf"] ⟨["watch/a.pdf"], []⟩).aborted = false := by
  have hok : ∀ q, WalkEntry.statErrEntry q ∉ [WalkEntry.fileEntry "watch/a.pdf"] := by
    intro q hq
    simp at hq
  have h := sweep_isolates_upload_failures true ⟨"u", "k", "watch", "", "processed", []⟩
    (fun _ => true) [] [WalkEntry.fileEntry "watch/a.pdf"] ⟨["watch/a.pdf"], []⟩ hok
  exact ⟨hok, h.2.1 "watch/a.pdf" (by simp), h.1⟩

/-- C9: in watchDirectory the watch subscription (watcher.Add) is
established strictly before the reconciliation sweep starts, so every
sweep upload in the startup trace is preceded by the subscribe step. -/
theorem subscribe_precedes_sweep_uploads
    (mkdirOK : Bool) (cfg : Config) (up : String → Bool) (tagIDs : List Int)
    (entries : List WalkEntry) (fs : FS) (i : Nat) (p : String) (ts : List Int) (ok : Bool)
    (h : (startupTrace mkdirOK cfg up tagIDs entries fs)[i]?
        = some (Action.uploadAttempt p ts ok)) :
    ∃ j, j < i ∧ (startupTrace mkdirOK cfg up tagIDs entries fs)[j]?
        = some Action.subscribe := by
  have h0 : (startupTrace mkdirOK cfg up tagIDs entries fs)[0]? = some Action.subscribe := by
    simp [startupTrace]
  refine ⟨0, ?_, h0⟩
  cases i with
  | zero =>
    rw [h0] at h
    exact absurd h (by simp)
  | succ n => exact Nat.succ_pos n

theorem subscribe_precedes_sweep_uploads_witness :
    ((startupTrace true ⟨"u", "k", "watch", "", "processed", []⟩ (fun _ => true) []
        [WalkEntry.fileEntry "watch/a.pdf"] ⟨["watch/a.pdf"], []⟩)[1]?
      = some (Action.uploadAttempt "watch/a.pdf" [] true))
    ∧ ∃ j, j < 1 ∧ (startupTrace true ⟨"u", "k", "watch", "", "processed", []⟩
        (fun _ => true) [] [WalkEntry.fileEntry "watch/a.pdf"] ⟨["watch/a.pdf"], []⟩)[j]?
        = some Action.subscribe :=
  ⟨rfl, subscribe_precedes_sweep_uploads true ⟨"u", "k", "watch", "", "processed", []⟩
    (fun _ => true) [] [WalkEntry.fileEntry "watch/a.pdf"] ⟨["watch/a.pdf"], []⟩
    1 "watch/a.pdf" [] true rfl⟩

theorem mapLookup_mapSet_self (m : List (String × Int)) (k : String) (v : Int) :
    mapLookup (mapSet m k v) k = some v := by
  unfold mapLookup mapSet
  rw [List.find?_append]
  have h1 : (m.filter (fun kv => kv.1 != k)).find? (fun kv => kv.1 == k) = none := by
    rw [List.find?_eq_none]
    intro x hx
    have hx1 := List.of_mem_filter hx
    simpa using hx1
  rw [h1]
  simp

theorem mapLookup_mapSet_ne (m : List (String × Int)) (k k' : String) (v : Int)
    (h : k' ≠ k) : mapLookup (mapSet m k v) k' = mapLookup m k' := by
  unfold mapLookup mapSet
  rw [List.find?_append]
  have h2 : ([(k, v)]).find? (fun kv => kv.1 == k') = none := by
    rw [List.find?_eq_none]
    intro x hx
    simp at hx
    subst hx
    simp [Ne.symm h]
  rw [h2]
  have h3 : (m.filter (fun kv => kv.1 != k)).find? (fun kv => kv.1 == k')
      = m.find? (fun kv => kv.1 == k') := by
    induction m with
    | nil => rfl
    | cons hd tl ih =>
      by_cases hk : hd.1 = k
      · rw [List.filter_cons_of_neg (by simp [hk]), ih,
          List.find?_cons_of_neg _ (by simp [hk, Ne.symm h])]
      · rw [List.filter_cons_of_pos (by simp [hk])]
        by_cases hk' : hd.1 = k'
        · rw [List.find?_cons_of_pos _ (by simp [hk']),
            List.find?_cons_of_pos _ (by simp [hk'])]
        · rw [List.find?_cons_of_neg _ (by simp [hk']),
            List.find?_cons_of_neg _ (by simp [hk']), ih]
  rw [h3]
  cases m.find? (fun kv => kv.1 == k') <;> rfl

theorem buildTagMap_lookup (catalog : List Tag) (n : String) :
    mapLookup (buildTagMap catalog) n
      = (catalog.reverse.find? (fun t => t.name == n)).map (fun t => t.id) := by
  suffices h : ∀ acc, mapLookup (catalog.foldl (fun m t => mapSet m t.name t.id) acc) n
      = ((catalog.reverse.find? (fun t => t.name == n)).map (fun t => t.id)).or
          (mapLookup acc n) by
    have h0 := h []
    have hnil : mapLookup [] n = none := rfl
    rw [buildTagMap, h0, hnil]
    cases (catalog.reverse.find? (fun t => t.name == n)).map (fun t => t.id) <;> rfl
  intro acc
  induction catalog generalizing acc with
  | nil => simp [mapLookup]
  | cons t ts ih =>
    rw [List.foldl_cons, ih, List.reverse_cons, List.find?_append]
    by_cases hn : t.name = n
    · subst hn
      rw [mapLookup_mapSet_self]
      have hf : ([t]).find? (fun x => x.name == t.name) = some t :=
        List.find?_cons_of_pos _ (by simp)
      rw [hf]
      cases hts : ts.reverse.find? (fun x => x.name == t.name) <;> simp [Option.or]
    · rw [mapLookup_mapSet_ne _ _ _ _ (fun he => hn he.symm)]
      have hf : ([t]).find? (fun x => x.name == n) = none := by
        rw [List.find?_eq_none]
        intro x hx
        simp at hx
        subst hx
        simp [hn]
      rw [hf]
      cases hts : ts.reverse.find? (fun x => x.name == n) <;> simp [Option.or]

theorem buildTagMap_lookup_mem (catalog : List Tag) (n : String) (i : Int)
    (h : mapLookup (buildTagMap catalog) n = some i) :
    ∃ t, t ∈ catalog ∧ t.name = n ∧ t.id = i := by
  rw [buildTagMap_lookup] at h
  cases hf : catalog.reverse.find? (fun t => t.name == n) with
  | none => rw [hf] at h; exact Option.noConfusion h
  | some u =>
    rw [hf] at h
    have hu1 : u.name = n := by simpa using List.find?_some hf
    have hu2 : u ∈ catalog := List.mem_reverse.mp (List.mem_of_find?_eq_some hf)
    exact ⟨u, hu2, hu1, by simpa using h⟩

theorem buildTagMap_lookup_of_mem (catalog : List Tag)
    (hnd : (catalog.map Tag.name).Nodup) (t : Tag) (ht : t ∈ catalog) :
    mapLookup (buildTagMap catalog) t.name = some t.id := by
  rw [buildTagMap_lookup]
  obtain ⟨u, hu⟩ : ∃ u, catalog.reverse.find? (fun x => x.name == t.name) = some u := by
    have hs : (catalog.reverse.find? (fun x => x.name == t.name)).isSome := by
      rw [List.find?_isSome]
      exact ⟨t, List.mem_reverse.mpr ht, by simp⟩
    exact Option.isSome_iff_exists.mp hs
  have hu1 : u.name = t.name := by simpa using List.find?_some hu
  have hu2 : u ∈ catalog := List.mem_reverse.mp (List.mem_of_find?_eq_some hu)
  have hut : u = t := List.inj_on_of_nodup_map hnd hu2 ht hu1
  rw [hu, hut]
  rfl

theorem buildTagMap_lookup_none (catalog : List Tag) (n : String) :
    mapLookup (buildTagMap catalog) n = none ↔ ∀ t ∈ catalog, t.name ≠ n := by
  rw [buildTagMap_lookup]
  constructor
  · intro h t ht hn
    cases hf : catalog.reverse.find? (fun x => x.name == n) with
    | none =>
      rw [List.find?_eq_none] at hf
      exact hf t (List.mem_reverse.mpr ht) (by simp [hn])
    | some u => rw [hf] at h; exact Option.noConfusion h
  · intro h
    have hf : catalog.reverse.find? (fun x => x.name == n) = none := by
      rw [List.find?_eq_none]
      intro x hx
      simpa using h x (List.mem_reverse.mp hx)
    rw [hf]
    rfl

theorem resolveTagIDs_mem_ids (tm : List (String × Int)) (names : List String) (i : Int) :
    i ∈ (resolveTagIDs tm names).1 ↔ ∃ n ∈ names, mapLookup tm n = some i := by
  induction names with
  | nil => simp [resolveTagIDs]
  | cons n rest ih =>
    cases hl : mapLookup tm n with
    | none =>
      simp only [resolveTagIDs, hl, ih]
      constructor
      · rintro ⟨m, hm, hmi⟩
        exact ⟨m, List.mem_cons_of_mem n hm, hmi⟩
      · rintro ⟨m, hm, hmi⟩
        rcases List.mem_cons.mp hm with rfl | hm
        · rw [hl] at hmi; exact Option.noConfusion hmi
        · exact ⟨m, hm, hmi⟩
    | some id =>
      simp only [resolveTagIDs, hl, List.mem_cons, ih]
      constructor
      · rintro (rfl | ⟨m, hm, hmi⟩)
        · exact ⟨n, Or.inl rfl, hl⟩
        · exact ⟨m, Or.inr hm, hmi⟩
      · rintro ⟨m, hm, hmi⟩
        rcases hm with rfl | hm
        · rw [hl] at hmi
          exact Or.inl (Option.some.inj hmi).symm
        · exact Or.inr ⟨m, hm, hmi⟩

theorem resolveTagIDs_mem_warn (tm : List (String × Int)) (names : List String)
    (n : String) : n ∈ (resolveTagIDs tm names).2 ↔
      n ∈ names ∧ mapLookup tm n = none := by
  induction names with
  | nil => simp [resolveTagIDs]
  | cons m rest ih =>
    cases hl : mapLookup tm m with
    | none =>
      simp only [resolveTagIDs, hl, List.mem_cons, ih]
      constructor
      · rintro (rfl | ⟨hm, hn⟩)
        · exact ⟨Or.inl rfl, hl⟩
        · exact ⟨Or.inr hm, hn⟩
      · rintro ⟨rfl | hm, hn⟩
        · exact Or.inl rfl
        · exact Or.inr ⟨hm, hn⟩
    | some id =>
      simp only [resolveTagIDs, hl, ih]
      constructor
      · rintro ⟨hm, hn⟩
        exact ⟨List.mem_cons_of_mem m hm, hn⟩
      · rintro ⟨hm, hn⟩
        rcases List.mem_cons.mp hm with rfl | hm
        · rw [hl] at hn; exact Option.noConfusion hn
        · exact ⟨hm, hn⟩

theorem handleCreateEvent_upload_tags (mkdirOK : Bool) (cfg : Config) (up : String → Bool)
    (tagIDs : List Int) (n : String) (fs : FS) (p : String) (ts : List Int) (ok : Bool)
    (h : Action.uploadAttempt p ts ok ∈ (handleCreateEvent mkdirOK cfg up tagIDs n fs).2) :
    ts = tagIDs := by
  cases hu : up n <;> simp [handleCreateEvent, hu] at h
  · exact h.2.1
  · rcases h with h | h
    · exact h.2.1
    · obtain ⟨m, hm⟩ := handlePostUpload_actions_logOnly mkdirOK cfg n fs _ h
      exact Action.noConfusion hm

theorem handleSweepFile_upload_tags (mkdirOK : Bool) (cfg : Config) (up : String → Bool)
    (tagIDs : List Int) (q : String) (fs : FS) (p : String) (ts : List Int) (ok : Bool)
    (h : Action.uploadAttempt p ts ok ∈ (handleSweepFile mkdirOK cfg up tagIDs q fs).2) :
    ts = tagIDs := by
  cases hu : up q <;> simp [handleSweepFile, hu] at h
  · exact h.2.1
  · rcases h with h | h
    · exact h.2.1
    · obtain ⟨m, hm⟩ := handlePostUpload_actions_logOnly mkdirOK cfg q fs _ h
      exact Action.noConfusion hm

theorem eventLoop_upload_tags (mkdirOK : Bool) (cfg : Config) (up : String → Bool)
    (tagIDs : List Int) (trace : List ChanItem) (fs : FS) (p : String) (ts : List Int)
    (ok : Bool)
    (h : Action.uploadAttempt p ts ok ∈ (eventLoop mkdirOK cfg up tagIDs trace fs).actions) :
    ts = tagIDs := by
  induction trace generalizing fs with
  | nil => simp [eventLoop] at h
  | cons hd tl ih =>
    cases hd with
    | createEvent n =>
      simp only [eventLoop, List.mem_cons, List.mem_append] at h
      rcases h with h | h | h
      · exact Action.noConfusion h
      · exact handleCreateEvent_upload_tags mkdirOK cfg up tagIDs n fs p ts ok h
      · exact ih _ h
    | otherEvent n =>
      simp only [eventLoop] at h
      exact ih fs h
    | errMsg m =>
      simp only [eventLoop, List.mem_cons] at h
      rcases h with h | h
      · exact Action.noConfusion h
      · exact ih fs h
    | eventsClosed => simp [eventLoop] at h
    | errorsClosed => simp [eventLoop] at h

theorem sweep_upload_tags (mkdirOK : Bool) (cfg : Config) (up : String → Bool)
    (tagIDs : List Int) (entries : List WalkEntry) (fs : FS) (p : String) (ts : List Int)
    (ok : Bool)
    (h : Action.uploadAttempt p ts ok ∈ (sweep mkdirOK cfg up tagIDs entries fs).actions) :
    ts = tagIDs := by
  induction entries generalizing fs with
  | nil => simp [sweep] at h
  | cons hd tl ih =>
    cases hd with
    | fileEntry q =>
      simp only [sweep, List.mem_append] at h
      rcases h with h | h
      · exact handleSweepFile_upload_tags mkdirOK cfg up tagIDs q fs p ts ok h
      · exact ih _ h
    | dirEntry q =>
      simp only [sweep] at h
      exact ih fs h
    | statErrEntry q =>
      simp only [sweep, List.mem_singleton] at h
      exact Action.noConfusion h

/-- C3: with the catalog's names unique (the spec's TagCatalog invariant),
the resolved id list contains exactly the ids of catalog entries whose
name is configured; every configured name absent from the catalog is
excluded with a warning and resolution never fails; and every upload of
the run — sweep or event-driven — is passed exactly that resolved id
list. -/
theorem resolved_tag_ids_match_catalog (catalog : List Tag) (cfgTags : List String)
    (hnd : (catalog.map Tag.name).Nodup) :
    (∀ i : Int, i ∈ (resolveTagIDs (buildTagMap catalog) cfgTags).1 ↔
        ∃ t, t ∈ catalog ∧ t.name ∈ cfgTags ∧ t.id = i)
    ∧ (∀ n, n ∈ (resolveTagIDs (buildTagMap catalog) cfgTags).2 ↔
        n ∈ cfgTags ∧ ∀ t ∈ catalog, t.name ≠ n)
    ∧ (∀ (mkdirOK : Bool) (cfg : Config) (up : String → Bool) (entries : List WalkEntry)
        (trace : List ChanItem) (fs : FS) (p : String) (ts : List Int) (ok : Bool),
        cfg.tags = cfgTags →
        Action.uploadAttempt p ts ok ∈ runWatchTrace mkdirOK cfg up catalog entries trace fs →
        ts = (resolveTagIDs (buildTagMap catalog) cfgTags).1) := by
  refine ⟨?_, ?_, ?_⟩
  · intro i
    rw [resolveTagIDs_mem_ids]
    constructor
    · rintro ⟨n, hn, hl⟩
      obtain ⟨t, ht, htn, hti⟩ := buildTagMap_lookup_mem catalog n i hl
      exact ⟨t, ht, htn ▸ hn, hti⟩
    · rintro ⟨t, ht, htn, hti⟩
      exact ⟨t.name, htn, hti ▸ buildTagMap_lookup_of_mem catalog hnd t ht⟩
  · intro n
    rw [resolveTagIDs_mem_warn, buildTagMap_lookup_none]
  · intro mkdirOK cfg up entries trace fs p ts ok hcfg h
    unfold runWatchTrace at h
    rw [hcfg] at h
    simp only [List.mem_cons, List.mem_append] at h
    rcases h with h | h | h
    · exact Action.noConfusion h
    · exact sweep_upload_tags mkdirOK cfg up _ entries fs p ts ok h
    · exact eventLoop_upload_tags mkdirOK cfg up _ trace _ p ts ok h

theorem resolved_tag_ids_match_catalog_witness :
    (([Tag.mk 1 "invoices"].map Tag.name).Nodup
    ∧ (1 : Int) ∈ (resolveTagIDs (buildTagMap [Tag.mk 1 "invoices"])
        ["invoices", "missing"]).1)
    ∧ "missing" ∈ (resolveTagIDs (buildTagMap [Tag.mk 1 "invoices"])
        ["invoices", "missing"]).2 := by
  have hnd : (([Tag.mk 1 "invoices"]).map Tag.name).Nodup := by decide
  have h := resolved_tag_ids_match_catalog [Tag.mk 1 "invoices"] ["invoices", "missing"] hnd
  refine ⟨⟨hnd, (h.1 1).mpr ⟨Tag.mk 1 "invoices", by decide, by decide, rfl⟩⟩, ?_⟩
  refine (h.2.1 "missing").mpr ⟨by decide, ?_⟩
  intro t ht
  rcases List.mem_singleton.mp ht with rfl
  decide

theorem takeWhile_append_stop (p : Char → Bool) (l m : List Char) (y : Char)
    (hl : ∀ x ∈ l, p x = true) (hy : p y = false) :
    (l ++ y :: m).takeWhile p = l := by
  induction l with
  | nil => simp [List.takeWhile_cons, hy]
  | cons c cs ih =>
    have hc : p c = true := hl c (List.mem_cons_self c cs)
    have hcs : ∀ x ∈ cs, p x = true := fun x hx => hl x (List.mem_cons_of_mem c hx)
    simp [List.takeWhile_cons, hc, ih hcs]

theorem dropWhile_append_stop (p : Char → Bool) (l m : List Char) (y : Char)
    (hl : ∀ x ∈ l, p x = true) (hy : p y = false) :
    (l ++ y :: m).dropWhile p = y :: m := by
  induction l with
  | nil => simp [List.dropWhile_cons, hy]
  | cons c cs ih =>
    have hc : p c = true := hl c (List.mem_cons_self c cs)
    have hcs : ∀ x ∈ cs, p x = true := fun x hx => hl x (List.mem_cons_of_mem c hx)
    simp [List.dropWhile_cons, hc, ih hcs]

theorem dropWhile_head_false (p : Char → Bool) (l : List Char) (c : Char)
    (rest : List Char) (h : l.dropWhile p = c :: rest) : p c = false := by
  induction l with
  | nil => exact List.noConfusion h
  | cons hd tl ih =>
    rw [List.dropWhile_cons] at h
    by_cases hp : p hd = true
    · rw [if_pos hp] at h
      exact ih h
    · rw [if_neg hp] at h
      cases h
      simpa using hp

theorem string_join_toList (d b : String) :
    (d ++ "/" ++ b).toList = d.toList ++ '/' :: b.toList := by
  show (d ++ "/" ++ b).data = d.data ++ '/' :: b.data
  rw [String.data_append, String.data_append]
  have hs : "/".data = ['/'] := rfl
  rw [hs, List.append_assoc]
  rfl

theorem filepathBase_join (d b : String) (hd0 : d.toList ≠ [])
    (hb0 : b.toList ≠ []) (hb1 : ∀ c ∈ b.toList, c ≠ '/') :
    filepathBase (d ++ "/" ++ b) = b := by
  have htl := string_join_toList d b
  have hne : d ++ "/" ++ b ≠ "" := by
    intro h
    rw [h] at htl
    exact absurd htl.symm (by simp)
  obtain ⟨c, cs, hbc⟩ : ∃ c cs, b.toList.reverse = c :: cs := by
    cases hb : b.toList.reverse with
    | nil => exact absurd (by simpa using congrArg List.reverse hb) hb0
    | cons c cs => exact ⟨c, cs, rfl⟩
  have hmemrev : ∀ x ∈ b.toList.reverse, (x != '/') = true := by
    intro x hx
    simpa using hb1 x (List.mem_reverse.mp hx)
  have hc : (c == '/') = false := by
    have hcm := hmemrev c (by rw [hbc]; exact List.mem_cons_self c cs)
    simpa [bne] using hcm
  have hrev : (d.toList ++ '/' :: b.toList).reverse
      = c :: (cs ++ '/' :: d.toList.reverse) := by
    rw [List.reverse_append, List.reverse_cons, hbc]
    simp
  have hdrop : ((d ++ "/" ++ b).toList.reverse).dropWhile (fun x => x == '/')
      = c :: (cs ++ '/' :: d.toList.reverse) := by
    rw [htl, hrev, List.dropWhile_cons, if_neg (by simp [hc])]
  have htk : (c :: (cs ++ '/' :: d.toList.reverse)).takeWhile (fun x => x != '/')
      = c :: cs := by
    have h1 : ((c :: cs) ++ '/' :: d.toList.reverse).takeWhile (fun x => x != '/')
        = c :: cs := by
      refine takeWhile_append_stop _ _ _ _ ?_ (by simp)
      intro x hx
      exact hmemrev x (by rw [hbc]; exact hx)
    simpa [List.cons_append] using h1
  unfold filepathBase
  rw [if_neg hne, hdrop, if_neg (by simp), htk, ← hbc, List.reverse_reverse]
  rfl

theorem filepathDir_join (d b : String) (hd0 : d.toList ≠ [])
    (hdl : d.toList.getLast? ≠ some '/')
    (hb0 : b.toList ≠ []) (hb1 : ∀ c ∈ b.toList, c ≠ '/') :
    filepathDir (d ++ "/" ++ b) = d := by
  have htl := string_join_toList d b
  have hmemrev : ∀ x ∈ b.toList.reverse, (x != '/') = true := by
    intro x hx
    simpa using hb1 x (List.mem_reverse.mp hx)
  have hrev : (d.toList ++ '/' :: b.toList).reverse
      = b.toList.reverse ++ '/' :: d.toList.reverse := by
    rw [List.reverse_append, List.reverse_cons]
    simp
  have hpre : ((d ++ "/" ++ b).toList.reverse).dropWhile (fun x => x != '/')
      = '/' :: d.toList.reverse := by
    rw [htl, hrev]
    exact dropWhile_append_stop _ _ _ _ hmemrev (by simp)
  obtain ⟨c, cs, hdc⟩ : ∃ c cs, d.toList.reverse = c :: cs := by
    cases hd : d.toList.reverse with
    | nil => exact absurd (by simpa using congrArg List.reverse hd) hd0
    | cons c cs => exact ⟨c, cs, rfl⟩
  have hc : (c == '/') = false := by
    have hh : d.toList.reverse.head? = some c := by rw [hdc]; rfl
    rw [List.head?_reverse] at hh
    have hcne : c ≠ '/' := fun h => hdl (h ▸ hh)
    simpa using hcne
  have hrest : ('/' :: d.toList.reverse).dropWhile (fun x => x == '/')
      = d.toList.reverse := by
    rw [List.dropWhile_cons, if_pos (by simp), hdc, List.dropWhile_cons,
      if_neg (by simp [hc]), ← hdc]
  have hdne : d.toList.reverse ≠ [] := by
    simpa using hd0
  unfold filepathDir
  rw [hpre, hrest, if_neg hdne, List.reverse_reverse]
  rfl

theorem handlePostUpload_dispose_count (mkdirOK : Bool) (cfg : Config) (p : String)
    (fs : FS) (n : String) :
    (handlePostUpload mkdirOK cfg p fs).2.countP
      (fun a => decide (a = Action.dispose n)) = 0 := by
  refine List.countP_eq_zero.mpr (fun a ha => ?_)
  obtain ⟨m, hm⟩ := handlePostUpload_actions_logOnly mkdirOK cfg p fs a ha
  simp [hm]

/-- C4 counterexample: with the "move" action and a successfully uploaded
file that already sits at processedFolder/basename (watch target inside
the processed folder), the os.Rename moves the file onto its own path and
it still exists at its original path afterwards. -/
theorem move_onto_own_path_keeps_file :
    ((fun _ : String => true) "processed/a.pdf" = true)
    ∧ "processed/a.pdf" ∈ (handleCreateEvent true
        ⟨"u", "k", "processed", "move", "processed", []⟩ (fun _ => true) []
        "processed/a.pdf" ⟨["processed/a.pdf"], ["processed"]⟩).1.files := by
  constructor
  · rfl
  · decide

/-- C4 amended: for every successfully uploaded file the disposer runs
exactly once with the configured action; the empty action leaves the
filesystem untouched, "delete" leaves no file at the original path, and
"move" — provided the folder can be created, path strings are canonical,
and the file is not already at its destination path
processedFolder/basename (the counterexample) — leaves no file at the
original path and exactly one file with the same base name directly in
the processed folder. -/
theorem successful_upload_disposition_postconditions
    (mkdirOK : Bool) (cfg : Config) (up : String → Bool) (tagIDs : List Int)
    (p : String) (fs : FS) (hup : up p = true) (hmem : p ∈ fs.files)
    (hnd : fs.files.Nodup) :
    ((handleCreateEvent mkdirOK cfg up tagIDs p fs).2.countP
        (fun a => decide (a = Action.dispose p)) = 1)
    ∧ (cfg.postUploadAction = "" → (handleCreateEvent mkdirOK cfg up tagIDs p fs).1 = fs)
    ∧ (cfg.postUploadAction = "delete" →
        p ∉ (handleCreateEvent mkdirOK cfg up tagIDs p fs).1.files)
    ∧ (cfg.postUploadAction = "move" → mkdirOK = true →
        cfg.processedFolder.toList ≠ [] →
        cfg.processedFolder.toList.getLast? ≠ some '/' →
        (filepathBase p).toList ≠ [] →
        (∀ c ∈ (filepathBase p).toList, c ≠ '/') →
        p ≠ filepathJoin cfg.processedFolder (filepathBase p) →
        (∀ q ∈ fs.files, filepathDir q = cfg.processedFolder →
            filepathBase q = filepathBase p →
            q = filepathJoin cfg.processedFolder (filepathBase p)) →
        p ∉ (handleCreateEvent mkdirOK cfg up tagIDs p fs).1.files
        ∧ (handleCreateEvent mkdirOK cfg up tagIDs p fs).1.files.filter
            (fun q => decide (filepathDir q = cfg.processedFolder)
              && decide (filepathBase q = filepathBase p))
          = [filepathJoin cfg.processedFolder (filepathBase p)]) := by
  have hfst : (handleCreateEvent mkdirOK cfg up tagIDs p fs).1
      = (handlePostUpload mkdirOK cfg p fs).1 := by
    simp [handleCreateEvent, hup]
  refine ⟨?_, ?_, ?_, ?_⟩
  · simp [handleCreateEvent, hup, List.countP_cons, handlePostUpload_dispose_count]
  · intro hact
    rw [hfst]
    simp [handlePostUpload, hact]
  · intro hact
    rw [hfst]
    have hdel : (handlePostUpload mkdirOK cfg p fs).1.files = fs.files.erase p := by
      unfold handlePostUpload
      rw [if_pos hact, if_pos hmem]
    rw [hdel]
    intro hin
    exact absurd ((List.Nodup.mem_erase_iff hnd).mp hin).1 (by simp)
  · intro hact hmk hp0 hpl hb0 hb1 hne hcanon
    have hdne : cfg.processedFolder ≠ "" := by
      intro h
      exact hp0 (by simp [h, String.toList])
    have hjoin : filepathJoin cfg.processedFolder (filepathBase p)
        = cfg.processedFolder ++ "/" ++ filepathBase p := by
      unfold filepathJoin
      rw [if_neg hdne]
    have hdirj : filepathDir (filepathJoin cfg.processedFolder (filepathBase p))
        = cfg.processedFolder := by
      rw [hjoin]
      exact filepathDir_join _ _ hp0 hpl hb0 hb1
    have hbasej : filepathBase (filepathJoin cfg.processedFolder (filepathBase p))
        = filepathBase p := by
      rw [hjoin]
      exact filepathBase_join _ _ hp0 hb0 hb1
    set newPath := filepathJoin cfg.processedFolder (filepathBase p) with hnp
    have hmove : (handlePostUpload mkdirOK cfg p fs).1.files
        = newPath :: ((fs.files.erase p).erase newPath) := by
      unfold handlePostUpload renameInto
      rw [if_neg (by rw [hact]; decide), if_pos hact]
      by_cases hdirs : cfg.processedFolder ∈ fs.dirs
      · rw [if_pos hdirs, if_pos hmem]
      · rw [if_neg hdirs, if_pos hmk, if_pos (show p ∈ (FS.mk fs.files
          (cfg.processedFolder :: fs.dirs)).files from hmem)]
    rw [hfst, hmove]
    constructor
    · intro hin
      rcases List.mem_cons.mp hin with heq | hin
      · exact hne heq
      · have hin2 : p ∈ fs.files.erase p := List.mem_of_mem_erase hin
        exact absurd ((List.Nodup.mem_erase_iff hnd).mp hin2).1 (by simp)
    · rw [List.filter_cons, if_pos (by simp [hdirj, hbasej])]
      have hnil : ((fs.files.erase p).erase newPath).filter
          (fun q => decide (filepathDir q = cfg.processedFolder)
            && decide (filepathBase q = filepathBase p)) = [] := by
        refine List.filter_eq_nil_iff.mpr (fun q hq => ?_)
        intro hpq
        simp only [Bool.and_eq_true, decide_eq_true_eq] at hpq
        have hqfs : q ∈ fs.files := List.mem_of_mem_erase (List.mem_of_mem_erase hq)
        have hqeq : q = newPath := hcanon q hqfs hpq.1 hpq.2
        have hqne : q ≠ newPath :=
          ((List.Nodup.mem_erase_iff (List.Nodup.erase p hnd)).mp hq).1
        exact hqne hqeq
      rw [hnil]

theorem successful_upload_disposition_postconditions_witness :
    ((fun _ : String => true) "watch/a.pdf" = true
      ∧ "watch/a.pdf" ∈ (FS.mk ["watch/a.pdf"] []).files
      ∧ (FS.mk ["watch/a.pdf"] []).files.Nodup)
    ∧ "watch/a.pdf" ∉ (handleCreateEvent true ⟨"u", "k", "watch", "move", "out", []⟩
        (fun _ => true) [] "watch/a.pdf" ⟨["watch/a.pdf"], []⟩).1.files
    ∧ (handleCreateEvent true ⟨"u", "k", "watch", "move", "out", []⟩ (fun _ => true) []
        "watch/a.pdf" ⟨["watch/a.pdf"], []⟩).1.files.filter
        (fun q => decide (filepathDir q = "out")
          && decide (filepathBase q = filepathBase "watch/a.pdf"))
      = [filepathJoin "out" (filepathBase "watch/a.pdf")] := by
  have h := successful_upload_disposition_postconditions true
    ⟨"u", "k", "watch", "move", "out", []⟩ (fun _ => true) [] "watch/a.pdf"
    ⟨["watch/a.pdf"], []⟩ rfl (by decide) (by decide)
  have hm := h.2.2.2 rfl rfl (by decide) (by decide) (by decide) (by decide)
    (by decide) (by decide)
  exact ⟨⟨rfl, by decide, by decide⟩, hm.1, hm.2⟩

end GoPaperlessUploader
